import Mathlib

/-!
Verification of the cost-basis position ledger and PnL engine of
`src/data_fetch/enhance_user_metrics.py`.

The Python code is shallowly embedded: JSON field values become `JVal`,
Python `float(x or 0)` coercion becomes `pyFloat`/`pyOr` over `Option ℚ`
(with `none` standing for a raised exception), the per-wallet positions
dict becomes a function `Key → Option Position`, and the trade fold of
`fetch_user_trades_with_prices` becomes `processTrades`.  All numeric
arithmetic is modelled over ℚ (exact arithmetic in place of IEEE doubles);
Python `round(x, 2)` becomes `rnd2` (round-half-to-even at 2 decimals).
-/

/-- A loosely typed JSON field value as the Python code sees it:
`jnull` is JSON null, `jnum q` a number with exact value `q`, and
`jstr v e` a string whose Python `float()` parse is `v` (`none` when
`float()` would raise `ValueError`) and where `e` records whether the
string is empty (`""`). -/
inductive JVal where
  | jnull : JVal
  | jnum : ℚ → JVal
  | jstr : Option ℚ → Bool → JVal
deriving DecidableEq

/-- Python truthiness of a field value: `None` and `0` and `""` are falsy. -/
def truthy : JVal → Bool
  | JVal.jnull => false
  | JVal.jnum q => decide (q ≠ 0)
  | JVal.jstr _ e => !e

/-- Python `a or b`: the first operand when truthy, otherwise the second. -/
def pyOr (a b : JVal) : JVal := if truthy a then a else b

/-- Python `float(v)`: `some q` on success, `none` when it raises
(`float(None)` raises TypeError, `float` of a non-numeric string raises
ValueError). -/
def pyFloat : JVal → Option ℚ
  | JVal.jnull => none
  | JVal.jnum q => some q
  | JVal.jstr v _ => v

/-- ASCII uppercase of one character, as Python `str.upper` acts on the
ASCII side strings of this feed. -/
def upperChar (c : Char) : Char :=
  if c.isLower then Char.ofNat (c.toNat - 32) else c

/-- Python `side.upper()` (line 69), restricted to ASCII (the side field
of this feed is `"BUY"`/`"SELL"`/`"buy"`/`"sell"` or empty). -/
def upperStr (s : String) : String := String.mk (s.data.map upperChar)

/-- The positions-dict key `(market_id, outcome)` of
`fetch_user_trades_with_prices` (line 79). -/
abbrev Key := String × String

/-- One open position: the value stored in the `positions` dict
(line 60): `{"shares": X, "cost_basis": Y}`. -/
structure Position where
  shares : ℚ
  cost_basis : ℚ
deriving DecidableEq

/-- The per-wallet positions dict, modelled extensionally as a partial map
from keys to positions (`none` = key absent). -/
def Positions : Type := Key → Option Position

/-- Dict write `positions[k] = v`. -/
def setPos (ps : Positions) (k : Key) (v : Position) : Positions :=
  fun k2 => if k2 = k then some v else ps k2

/-- Dict delete `del positions[k]` (line 114). -/
def erasePos (ps : Positions) (k : Key) : Positions :=
  fun k2 => if k2 = k then none else ps k2

/-- The empty dict `positions = {}` (line 60). -/
def emptyPos : Positions := fun _ => none

/-- A raw trade record from the `/trades` endpoint, restricted to the
fields the ledger reads (lines 67-71).  `none` on an `Option JVal` field
means the key is absent from the JSON object; `side`, `marketId` and
`outcome` are modelled post-`get` with their code defaults (`""`). -/
structure RawTrade where
  size : Option JVal
  price : Option JVal
  side : String
  market : Option String
  marketId : String
  outcome : String

/-- Model of `item.get("market") or item.get("marketId", "")` (line 70): the
`market` value when present and non-empty, otherwise the `marketId`
default chain. -/
def marketKeyOf (market : Option String) (marketId : String) : String :=
  match market with
  | some m => if m = "" then marketId else m
  | none => marketId

/-- The `(market_id, outcome)` position key of a trade (lines 70-71, 79). -/
def tradeKey (t : RawTrade) : Key := (marketKeyOf t.market t.marketId, t.outcome)

/-- Model of `float(item.get("size", 0) or 0)` (line 67); `none` when `float` raises. -/
def parseSize (t : RawTrade) : Option ℚ :=
  pyFloat (pyOr ((t.size).getD (JVal.jnum 0)) (JVal.jnum 0))

/-- Model of `float(item.get("price", 0) or 0)` (line 68); `none` when `float` raises. -/
def parsePrice (t : RawTrade) : Option ℚ :=
  pyFloat (pyOr ((t.price).getD (JVal.jnum 0)) (JVal.jnum 0))

/-- The coerced size of a trade (0 when unparseable, used only under
parse-success hypotheses). -/
def szOf (t : RawTrade) : ℚ := (parseSize t).getD 0

/-- The coerced price of a trade. -/
def prOf (t : RawTrade) : ℚ := (parsePrice t).getD 0

/-- The coerced dollar amount `size * price` of a trade (line 74). -/
def amtOf (t : RawTrade) : ℚ := szOf t * prOf t

/-- The running state of the per-wallet trade fold of
`fetch_user_trades_with_prices` (lines 55-63). -/
structure LedgerState where
  total_dollar_volume : ℚ
  trade_count : ℕ
  positions : Positions
  realized_pnl : ℚ
  winning_trades : ℕ
  losing_trades : ℕ

/-- The initial fold state (lines 55-63). -/
def initState : LedgerState :=
  { total_dollar_volume := 0
    trade_count := 0
    positions := emptyPos
    realized_pnl := 0
    winning_trades := 0
    losing_trades := 0 }

/-- The BUY branch (lines 81-87): create `{"shares": 0, "cost_basis": 0}`
when the key is absent, then `shares += size; cost_basis += dollar_amount`. -/
def applyBuy (ps : Positions) (k : Key) (size dollar_amount : ℚ) : Positions :=
  let p := (ps k).getD (Position.mk 0 0)
  setPos ps k (Position.mk (p.shares + size) (p.cost_basis + dollar_amount))

/-- The SELL branch (lines 89-114): when the key holds a position with
`shares > 0`, realize `pnl = proceeds - avg_cost * size`, classify it as
winning/losing, subtract the sold size, and either recompute
`cost_basis = avg_cost * shares` (partial sell) or delete the entry
(full closure); otherwise skip PnL attribution entirely. -/
def applySell (s : LedgerState) (k : Key) (size dollar_amount : ℚ) : LedgerState :=
  match s.positions k with
  | none => s
  | some p =>
      if 0 < p.shares then
        let avg_cost := p.cost_basis / p.shares
        let trade_pnl := dollar_amount - avg_cost * size
        let winning := if 0 < trade_pnl then s.winning_trades + 1 else s.winning_trades
        let losing := if trade_pnl < 0 then s.losing_trades + 1 else s.losing_trades
        let shares2 := p.shares - size
        let positions2 :=
          if 0 < shares2 then setPos s.positions k (Position.mk shares2 (avg_cost * shares2))
          else erasePos s.positions k
        { s with realized_pnl := s.realized_pnl + trade_pnl
                 winning_trades := winning
                 losing_trades := losing
                 positions := positions2 }
      else s

/-- One iteration of the trade loop (lines 65-114): parse `size`/`price`
(`none` propagates a raised `float()` exception), always add the dollar
amount to volume and bump the trade count, then dispatch on the
upper-cased side. -/
def processTrade (s : LedgerState) (t : RawTrade) : Option LedgerState :=
  match parseSize t, parsePrice t with
  | some size, some price =>
      let side := upperStr t.side
      let dollar_amount := size * price
      let s1 := { s with total_dollar_volume := s.total_dollar_volume + dollar_amount
                         trade_count := s.trade_count + 1 }
      let key := tradeKey t
      if side = "BUY" then
        some { s1 with positions := applyBuy s1.positions key size dollar_amount }
      else if side = "SELL" then
        some (applySell s1 key size dollar_amount)
      else
        some s1
  | _, _ => none

/-- The whole trade fold of `fetch_user_trades_with_prices` starting from
the empty state; `none` means some iteration raised. -/
def processTrades (items : List RawTrade) : Option LedgerState :=
  items.foldlM processTrade initState

/-- Round-half-to-even to an integer, Python `round`'s tie-breaking rule. -/
def pyRound (q : ℚ) : ℤ :=
  let f := Int.fdiv q.num (Int.ofNat q.den)
  let r := q - (f : ℚ)
  if r < 1 / 2 then f
  else if 1 / 2 < r then f + 1
  else if f % 2 = 0 then f else f + 1

/-- Python `round(q, 2)`. -/
def rnd2 (q : ℚ) : ℚ := (pyRound (q * 100) : ℚ) / 100

/-- The win-rate computation of lines 118-120:
`winning / (winning + losing) * 100` guarded to `0` when there are no
closed trades. -/
def winRateCalc (winning losing : ℕ) : ℚ :=
  let total_closed := winning + losing
  if 0 < total_closed then (winning : ℚ) / (total_closed : ℚ) * 100 else 0

/-- The metrics dict built at lines 116-130. -/
structure Metrics where
  total_dollar_volume : ℚ
  avg_trade_dollars : ℚ
  realized_pnl : ℚ
  win_rate : ℚ
  winning_trades : ℕ
  losing_trades : ℕ
  total_trades : ℕ
deriving DecidableEq

/-- Build the metrics dict from the final fold state (lines 116-130):
the guarded average, the guarded win rate, and 2-decimal rounding of the
monetary fields. -/
def buildMetrics (s : LedgerState) : Metrics :=
  let avg_trade_dollars :=
    if 0 < s.trade_count then s.total_dollar_volume / (s.trade_count : ℚ) else 0
  { total_dollar_volume := rnd2 s.total_dollar_volume
    avg_trade_dollars := rnd2 avg_trade_dollars
    realized_pnl := rnd2 s.realized_pnl
    win_rate := rnd2 (winRateCalc s.winning_trades s.losing_trades)
    winning_trades := s.winning_trades
    losing_trades := s.losing_trades
    total_trades := s.trade_count }

/-- The all-zero metrics dict returned on the empty-items path
(lines 45-53) and on the exception path (lines 136-143). -/
def zeroMetrics : Metrics :=
  { total_dollar_volume := 0
    avg_trade_dollars := 0
    realized_pnl := 0
    win_rate := 0
    winning_trades := 0
    losing_trades := 0
    total_trades := 0 }

/-- Outcome of an external HTTP fetch: a raised network/HTTP error, or a
successfully decoded list of records. -/
inductive Fetch (α : Type) where
  | failure : Fetch α
  | success : List α → Fetch α

/-- What `fetch_user_trades_with_prices` actually returns to its caller:
`tup m ps` is the documented `(metrics, positions)` tuple, while `bare m`
is the bare metrics dict returned on the empty-items path (lines 44-53),
which is NOT a 2-tuple. -/
inductive TradesResult where
  | tup : Metrics → Positions → TradesResult
  | bare : Metrics → TradesResult

/-- Embedding of `fetch_user_trades_with_prices` (lines 25-144): a fetch failure or an
in-loop `float()` exception is caught at line 134 and yields the all-zero
tuple; an empty item list returns the bare dict of lines 45-53; otherwise
the fold result is packaged at lines 122-132. -/
def fetchUserTradesWithPrices (f : Fetch RawTrade) : TradesResult :=
  match f with
  | Fetch.failure => TradesResult.tup zeroMetrics emptyPos
  | Fetch.success items =>
      if items.isEmpty then TradesResult.bare zeroMetrics
      else
        match processTrades items with
        | none => TradesResult.tup zeroMetrics emptyPos
        | some s => TradesResult.tup (buildMetrics s) s.positions

/-- Projection of the metrics component of a proper tuple result
(`none` for the bare-dict result). -/
def tupMetrics : TradesResult → Option Metrics
  | TradesResult.tup m _ => some m
  | TradesResult.bare _ => none

/-- A raw live-position record from the `/positions` endpoint, restricted
to the fields read at lines 179-193. -/
structure RawPos where
  size : Option JVal
  tokens : Option JVal
  price : Option JVal
  market : Option String
  marketId : String
  outcome : String

/-- Model of `float(item.get("size", 0) or item.get("tokens", 0) or 0)` (line 181):
the live position size with the `tokens` fallback; `none` when `float`
raises. -/
def liveSize (size tokens : Option JVal) : Option ℚ :=
  pyFloat (pyOr (size.getD (JVal.jnum 0)) (pyOr (tokens.getD (JVal.jnum 0)) (JVal.jnum 0)))

/-- Model of `float(item.get("price", 0) or 0)` for a live record (line 184). -/
def parseLivePrice (it : RawPos) : Option ℚ :=
  pyFloat (pyOr ((it.price).getD (JVal.jnum 0)) (JVal.jnum 0))

/-- The `(market_id, outcome)` key of a live record (lines 191-193). -/
def posKey (it : RawPos) : Key := (marketKeyOf it.market it.marketId, it.outcome)

/-- One iteration of the reconciliation loop (lines 179-198) over the
accumulator `(position_value_dollars, unrealized_pnl)`: every record adds
`size * price` to the value total; a record whose key matches an open
ledger position with `shares > 0` additionally adds
`current_value - size * avg_cost` to unrealized PnL. -/
def reconcileOne (ops : Positions) (acc : ℚ × ℚ) (it : RawPos) : Option (ℚ × ℚ) :=
  match liveSize it.size it.tokens, parseLivePrice it with
  | some size, some current_price =>
      let current_value := size * current_price
      let position_value := acc.1 + current_value
      let unrealized :=
        match ops (posKey it) with
        | some p =>
            if 0 < p.shares then acc.2 + (current_value - size * (p.cost_basis / p.shares))
            else acc.2
        | none => acc.2
      some (position_value, unrealized)
  | _, _ => none

/-- The dict returned by `fetch_user_positions_dollars` (lines 200-210). -/
structure PosMetrics where
  position_value_dollars : ℚ
  unrealized_pnl : ℚ
deriving DecidableEq

/-- Embedding of `fetch_user_positions_dollars` (lines 147-210): a fetch failure or an
in-loop `float()` exception is caught at line 205 and yields zeros;
otherwise the reconciliation totals are rounded at lines 200-203. -/
def fetchUserPositionsDollars (f : Fetch RawPos) (ops : Positions) : PosMetrics :=
  match f with
  | Fetch.failure => PosMetrics.mk 0 0
  | Fetch.success items =>
      match items.foldlM (reconcileOne ops) ((0 : ℚ), (0 : ℚ)) with
      | none => PosMetrics.mk 0 0
      | some acc => PosMetrics.mk (rnd2 acc.1) (rnd2 acc.2)

/-- The financial fields `enhance_user` adds to a wallet row
(lines 230-240). -/
structure Profile where
  total_dollar_volume : ℚ
  avg_trade_dollars : ℚ
  realized_pnl : ℚ
  unrealized_pnl : ℚ
  total_pnl : ℚ
  win_rate_percent : ℚ
  winning_trades : ℕ
  losing_trades : ℕ
  position_value_dollars : ℚ
deriving DecidableEq

/-- A default profile value used only to project evaluation results. -/
def defProfile : Profile := Profile.mk 0 0 0 0 0 0 0 0 0

/-- Embedding of `enhance_user` (lines 213-242): unpack the trade-fetch result into
`(trade_metrics, open_positions)` — the bare-dict result of the
empty-items path is a 7-key dict, so unpacking it into two names raises
`ValueError` (modelled as `none`) — then reconcile positions and emit the
profile row with `total_pnl = round(realized + unrealized, 2)`
(lines 226, 235). -/
def enhanceUser (ft : Fetch RawTrade) (fp : Fetch RawPos) : Option Profile :=
  match fetchUserTradesWithPrices ft with
  | TradesResult.bare _ => none
  | TradesResult.tup m ops =>
      let pm := fetchUserPositionsDollars fp ops
      let total_pnl := m.realized_pnl + pm.unrealized_pnl
      some
        { total_dollar_volume := m.total_dollar_volume
          avg_trade_dollars := m.avg_trade_dollars
          realized_pnl := m.realized_pnl
          unrealized_pnl := pm.unrealized_pnl
          total_pnl := rnd2 total_pnl
          win_rate_percent := m.win_rate
          winning_trades := m.winning_trades
          losing_trades := m.losing_trades
          position_value_dollars := pm.position_value_dollars }

/-- Shares of an optional position, with the dict-default `{shares: 0}`
used by the BUY branch. -/
def shOf (o : Option Position) : ℚ := (o.getD (Position.mk 0 0)).shares

/-- Cost basis of an optional position, with the dict default. -/
def cbOf (o : Option Position) : ℚ := (o.getD (Position.mk 0 0)).cost_basis

/-- Sum of the coerced sizes of the trades whose key is `k`. -/
def keySizeSum (items : List RawTrade) (k : Key) : ℚ :=
  (items.map (fun t => if tradeKey t = k then szOf t else 0)).sum

/-- Sum of the coerced dollar amounts of the trades whose key is `k`. -/
def keyCostSum (items : List RawTrade) (k : Key) : ℚ :=
  (items.map (fun t => if tradeKey t = k then amtOf t else 0)).sum

/-! ## Concrete inputs used by witnesses and counterexamples -/

def c1state : LedgerState :=
  { total_dollar_volume := 0
    trade_count := 0
    positions := setPos emptyPos ("m", "yes") (Position.mk 20 30)
    realized_pnl := 0
    winning_trades := 0
    losing_trades := 0 }

def c1trade : RawTrade :=
  RawTrade.mk (some (JVal.jnum 5)) (some (JVal.jnum 3)) "SELL" (some ("m")) "" "yes"

def c5trade : RawTrade :=
  RawTrade.mk (some (JVal.jnum 5)) (some (JVal.jnum 3)) "SELL" (some ("m")) "" "yes"

def c3zero : RawTrade := RawTrade.mk none none ("BUY") (some ("m")) "" "yes"

/-- All entries of a positions map hold strictly positive shares. -/
def posInv (ps : Positions) : Prop := ∀ k p, ps k = some p → 0 < p.shares

def c3buy : RawTrade :=
  RawTrade.mk (some (JVal.jnum 1)) (some (JVal.jnum (1 / 2))) "BUY" (some ("m")) "" "yes"

def c2buy1 : RawTrade :=
  RawTrade.mk (some (JVal.jnum 10)) (some (JVal.jnum 1)) "BUY" (some ("m")) "" "yes"

def c2buy2 : RawTrade :=
  RawTrade.mk (some (JVal.jnum 10)) (some (JVal.jnum 2)) "BUY" (some ("m")) "" "yes"


/-- A field-typing contract: the value, when present, is JSON null or a
JSON number (the live-position interface declares `size`/`tokens` as
numeric). -/
def numericOpt (o : Option JVal) : Prop :=
  ∀ v, o = some v → v = JVal.jnull ∨ ∃ q : ℚ, v = JVal.jnum q

/-- The field is absent or its value is Python-falsy. -/
def falsyOpt (o : Option JVal) : Prop := ∀ v, o = some v → truthy v = false

/-- Numeric reading of an optional numeric field: absent/null read as 0. -/
def nvOf (o : Option JVal) : ℚ :=
  match o with
  | some (JVal.jnum q) => q
  | _ => 0

def c6ops : Positions := setPos emptyPos ("m", "yes") (Position.mk 10 5)

def c6live : RawPos :=
  RawPos.mk (some (JVal.jnum 10)) none (some (JVal.jnum (7 / 10))) (some ("m")) "" "yes"

def c7good : RawTrade :=
  RawTrade.mk (some (JVal.jnum 1)) (some (JVal.jnum (1 / 2))) "BUY" (some ("m")) "" "yes"

/-- A trade whose `size` is a non-empty, non-numeric string (e.g. `"abc"`):
its `float()` parse raises `ValueError`. -/
def c7bad : RawTrade :=
  RawTrade.mk (some (JVal.jstr none false)) (some (JVal.jnum (1 / 2))) "BUY" (some ("m")) "" "yes"

/-- A trade with `size` absent and `price` JSON null. -/
def c7null : RawTrade := RawTrade.mk none (some JVal.jnull) "BUY" (some ("m")) "" "yes"

def c8buyA : RawTrade :=
  RawTrade.mk (some (JVal.jnum 1)) (some (JVal.jnum (249 / 250))) "BUY" (some ("A")) "" "y"

def c8sellA : RawTrade :=
  RawTrade.mk (some (JVal.jnum 1)) (some (JVal.jnum 1)) "SELL" (some ("A")) "" "y"

def c8buyB : RawTrade :=
  RawTrade.mk (some (JVal.jnum 1)) (some (JVal.jnum (249 / 250))) "BUY" (some ("B")) "" "y"

def c8mark : RawPos :=
  RawPos.mk (some (JVal.jnum 1)) none (some (JVal.jnum 1)) (some ("B")) "" "y"

/-! ## Basic lemmas about the positions map and the trade step -/

theorem setPos_self (ps : Positions) (k : Key) (v : Position) : setPos ps k v k = some v := by
  simp [setPos]

theorem setPos_other (ps : Positions) (k k2 : Key) (v : Position) (h : k2 ≠ k) :
    setPos ps k v k2 = ps k2 := by
  simp [setPos, h]

theorem erasePos_self (ps : Positions) (k : Key) : erasePos ps k k = none := by
  simp [erasePos]

theorem erasePos_other (ps : Positions) (k k2 : Key) (h : k2 ≠ k) :
    erasePos ps k k2 = ps k2 := by
  simp [erasePos, h]

theorem applyBuy_self (ps : Positions) (k : Key) (sz d : ℚ) :
    applyBuy ps k sz d k = some (Position.mk (shOf (ps k) + sz) (cbOf (ps k) + d)) := by
  simp [applyBuy, setPos, shOf, cbOf]

theorem applyBuy_other (ps : Positions) (k k2 : Key) (sz d : ℚ) (h : k2 ≠ k) :
    applyBuy ps k sz d k2 = ps k2 := by
  simp [applyBuy, setPos, h]

theorem processTrade_buy (s : LedgerState) (t : RawTrade) (sz pr : ℚ)
    (hsz : parseSize t = some sz) (hpr : parsePrice t = some pr)
    (hside : upperStr t.side = "BUY") :
    processTrade s t =
      some { s with total_dollar_volume := s.total_dollar_volume + sz * pr
                    trade_count := s.trade_count + 1
                    positions := applyBuy s.positions (tradeKey t) sz (sz * pr) } := by
  simp [processTrade, hsz, hpr, hside]

theorem processTrade_sell (s : LedgerState) (t : RawTrade) (sz pr : ℚ)
    (hsz : parseSize t = some sz) (hpr : parsePrice t = some pr)
    (hside : upperStr t.side = "SELL") :
    processTrade s t =
      some (applySell
        { s with total_dollar_volume := s.total_dollar_volume + sz * pr
                 trade_count := s.trade_count + 1 }
        (tradeKey t) sz (sz * pr)) := by
  simp [processTrade, hsz, hpr, hside]

theorem processTrade_skip (s : LedgerState) (t : RawTrade) (sz pr : ℚ)
    (hsz : parseSize t = some sz) (hpr : parsePrice t = some pr)
    (hb : upperStr t.side ≠ "BUY") (hs : upperStr t.side ≠ "SELL") :
    processTrade s t =
      some { s with total_dollar_volume := s.total_dollar_volume + sz * pr
                    trade_count := s.trade_count + 1 } := by
  simp [processTrade, hsz, hpr, hb, hs]

/-- Claim C1: a SELL matched to an open position with `shares > 0` adds
`size*price - (cost_basis/shares)*size` to the running realized PnL,
subtracts `size` from `shares`, and then either recomputes the cost basis
as the pre-sell average cost times the remaining shares (partial sell) or
deletes the position entry entirely (remaining shares `≤ 0`). -/
theorem C1_sell_matched (s : LedgerState) (t : RawTrade) (sz pr : ℚ) (p : Position)
    (hside : upperStr t.side = "SELL")
    (hsz : parseSize t = some sz) (hpr : parsePrice t = some pr)
    (hpos : s.positions (tradeKey t) = some p) (hsh : 0 < p.shares) :
    ∃ s2, processTrade s t = some s2 ∧
      s2.realized_pnl = s.realized_pnl + (sz * pr - p.cost_basis / p.shares * sz) ∧
      (0 < p.shares - sz →
        s2.positions (tradeKey t) =
          some (Position.mk (p.shares - sz) (p.cost_basis / p.shares * (p.shares - sz)))) ∧
      (p.shares - sz ≤ 0 → s2.positions (tradeKey t) = none) := by
  refine ⟨_, processTrade_sell s t sz pr hsz hpr hside, ?_, ?_, ?_⟩
  · simp [applySell, hpos, hsh]
  · intro hrem
    simp [applySell, hpos, hsh, hrem, setPos]
  · intro hrem
    have hrem2 : ¬ (0 < p.shares - sz) := not_lt.mpr hrem
    simp [applySell, hpos, hsh, hrem2, erasePos]

/-- Witness for C1: selling 5 shares at price 3 out of a 20-share position
with cost basis 30 realizes `15 - 1.5*5 = 7.5` and leaves
`shares = 15, cost_basis = 22.5`. -/
theorem C1_sell_matched_witness :
    (processTrade c1state c1trade).map (fun s => (s.realized_pnl, s.positions ("m", "yes"))) =
      some (15 / 2, some (Position.mk 15 (45 / 2))) := by
  obtain ⟨s2, h1, h2, h3, -⟩ := C1_sell_matched c1state c1trade 5 3 (Position.mk 20 30)
    (by with_unfolding_all decide) (by with_unfolding_all decide)
    (by with_unfolding_all decide) (by with_unfolding_all decide) (by norm_num)
  have h4 := h3 (by norm_num)
  have hk : tradeKey c1trade = ("m", "yes") := by with_unfolding_all decide
  rw [hk] at h4
  rw [h1, Option.map_some', h2, h4]
  norm_num [c1state, Prod.ext_iff, Position.mk.injEq]

/-- Claim C5: a SELL whose key has no open position, or whose position has
`shares ≤ 0`, still adds `size*price` to the dollar volume and counts in
the trade count, but changes nothing else: no realized PnL, no win/loss
increment, no position change. -/
theorem C5_unmatched_sell (s : LedgerState) (t : RawTrade) (sz pr : ℚ)
    (hside : upperStr t.side = "SELL")
    (hsz : parseSize t = some sz) (hpr : parsePrice t = some pr)
    (hun : ∀ p, s.positions (tradeKey t) = some p → p.shares ≤ 0) :
    processTrade s t =
      some { s with total_dollar_volume := s.total_dollar_volume + sz * pr
                    trade_count := s.trade_count + 1 } := by
  rw [processTrade_sell s t sz pr hsz hpr hside]
  cases h : s.positions (tradeKey t) with
  | none => simp [applySell, h]
  | some p => simp [applySell, h, not_lt.mpr (hun p h)]

/-- Witness for C5: an unmatched sell of 5 shares at price 3 from the
empty state only adds 15 to volume and 1 to the trade count. -/
theorem C5_unmatched_sell_witness :
    processTrade initState c5trade =
      some { initState with
               total_dollar_volume := initState.total_dollar_volume + 5 * 3
               trade_count := initState.trade_count + 1 } :=
  C5_unmatched_sell initState c5trade 5 3 (by with_unfolding_all decide)
    (by with_unfolding_all decide) (by with_unfolding_all decide)
    (fun p hp => by simp [initState, emptyPos] at hp)

/-- Claim C9: the win rate computed at lines 118-120 (before presentation
rounding) is `winning / (winning + losing) * 100` whenever the closed
count is positive and exactly 0 when it is 0 (the guard prevents any
division by zero); one win and one loss give 50. -/
theorem C9_win_rate (w l : ℕ) :
    (w + l = 0 → winRateCalc w l = 0) ∧
    (0 < w + l → winRateCalc w l = (w : ℚ) / ((w : ℚ) + (l : ℚ)) * 100) ∧
    winRateCalc 1 1 = 50 := by
  refine ⟨fun h => by simp [winRateCalc, h], fun h => ?_, by norm_num [winRateCalc]⟩
  simp only [winRateCalc, if_pos h]
  push_cast
  ring

/-- Witness for C9 at the boundary cases 0/0 and 1/1. -/
theorem C9_win_rate_witness : winRateCalc 0 0 = 0 ∧ winRateCalc 1 1 = 50 :=
  ⟨(C9_win_rate 0 0).1 rfl, (C9_win_rate 1 1).2.2⟩

/-- Claim C4 (code bug): when the trade fetch succeeds with an empty item
list, `fetch_user_trades_with_prices` returns the bare 7-key metrics dict
of lines 45-53 instead of the documented `(metrics, positions)` tuple, so
the unpacking `trade_metrics, open_positions = ...` at line 220 raises
`ValueError` and the wallet (and batch) processing aborts instead of
yielding an all-zero profile. -/
theorem C4_empty_trades_aborts :
    fetchUserTradesWithPrices (Fetch.success []) = TradesResult.bare zeroMetrics ∧
    enhanceUser (Fetch.success []) (Fetch.success []) = none ∧
    fetchUserTradesWithPrices Fetch.failure = TradesResult.tup zeroMetrics emptyPos ∧
    (enhanceUser Fetch.failure Fetch.failure).isSome = true := by
  exact ⟨rfl, rfl, rfl, rfl⟩

/-- Counterexample to C3: a single BUY whose missing size coerces to 0 on
a fresh key leaves an entry with `shares = 0` in the positions map, so the
map does not only contain entries with strictly positive shares. -/
theorem C3_counterexample :
    (processTrades [c3zero]).map (fun s => s.positions ("m", "yes")) =
      some (some (Position.mk 0 0)) := by
  with_unfolding_all decide

theorem applyBuy_posInv (ps : Positions) (k : Key) (sz d : ℚ)
    (hinv : posInv ps) (hsz : 0 < sz) : posInv (applyBuy ps k sz d) := by
  intro k2 p hp
  by_cases hk : k2 = k
  · subst hk
    rw [applyBuy_self] at hp
    cases hq : ps k2 with
    | none =>
        rw [hq] at hp
        simp only [shOf, Option.getD_none, Option.some.injEq] at hp
        rw [← hp]
        simpa using hsz
    | some q =>
        rw [hq] at hp
        simp only [shOf, Option.getD_some, Option.some.injEq] at hp
        rw [← hp]
        exact add_pos (hinv k2 q hq) hsz
  · rw [applyBuy_other ps k k2 sz d hk] at hp
    exact hinv k2 p hp

theorem applySell_posInv (s : LedgerState) (k : Key) (sz d : ℚ)
    (hinv : posInv s.positions) : posInv (applySell s k sz d).positions := by
  unfold applySell
  cases hq : s.positions k with
  | none => exact hinv
  | some q =>
      by_cases hqs : 0 < q.shares
      · simp only [if_pos hqs]
        intro k2 p hp
        by_cases hrem : 0 < q.shares - sz
        · rw [if_pos hrem] at hp
          by_cases hk : k2 = k
          · subst hk
            rw [setPos_self] at hp
            simp only [Option.some.injEq] at hp
            rw [← hp]
            exact hrem
          · rw [setPos_other _ _ _ _ hk] at hp
            exact hinv k2 p hp
        · rw [if_neg hrem] at hp
          by_cases hk : k2 = k
          · subst hk
            rw [erasePos_self] at hp
            cases hp
          · rw [erasePos_other _ _ _ hk] at hp
            exact hinv k2 p hp
      · simp only [if_neg hqs]
        exact hinv

theorem processTrade_size_none (s : LedgerState) (t : RawTrade) (h : parseSize t = none) :
    processTrade s t = none := by
  cases hpr : parsePrice t <;> simp [processTrade, h, hpr]

theorem processTrade_price_none (s : LedgerState) (t : RawTrade) (h : parsePrice t = none) :
    processTrade s t = none := by
  cases hsz : parseSize t <;> simp [processTrade, h, hsz]

theorem processTrade_posInv (s s2 : LedgerState) (t : RawTrade)
    (hinv : posInv s.positions) (hb : upperStr t.side = "BUY" → 0 < szOf t)
    (h : processTrade s t = some s2) : posInv s2.positions := by
  cases hsz : parseSize t with
  | none => rw [processTrade_size_none s t hsz] at h; cases h
  | some sz =>
      cases hpr : parsePrice t with
      | none => rw [processTrade_price_none s t hpr] at h; cases h
      | some pr =>
          by_cases hbuy : upperStr t.side = "BUY"
          · rw [processTrade_buy s t sz pr hsz hpr hbuy, Option.some.injEq] at h
            rw [← h]
            have hszpos : 0 < sz := by
              have := hb hbuy
              rwa [szOf, hsz, Option.getD_some] at this
            exact applyBuy_posInv _ _ _ _ hinv hszpos
          · by_cases hsell : upperStr t.side = "SELL"
            · rw [processTrade_sell s t sz pr hsz hpr hsell, Option.some.injEq] at h
              rw [← h]
              exact applySell_posInv _ _ _ _ hinv
            · rw [processTrade_skip s t sz pr hsz hpr hbuy hsell, Option.some.injEq] at h
              rw [← h]
              exact hinv

theorem foldl_posInv (items : List RawTrade)
    (hb : ∀ t ∈ items, upperStr t.side = "BUY" → 0 < szOf t) :
    ∀ s0 : LedgerState, posInv s0.positions →
      ∀ s, List.foldlM processTrade s0 items = some s → posInv s.positions := by
  induction items with
  | nil =>
      intro s0 h0 s hs
      simp only [List.foldlM_nil] at hs
      cases hs
      exact h0
  | cons t ts ih =>
      intro s0 h0 s hs
      rw [List.foldlM_cons] at hs
      cases hstep : processTrade s0 t with
      | none => rw [hstep] at hs; cases hs
      | some s1 =>
          rw [hstep] at hs
          have h1 : posInv s1.positions :=
            processTrade_posInv s0 s1 t h0 (hb t (List.mem_cons_self t ts)) hstep
          exact ih (fun u hu => hb u (List.mem_cons_of_mem t hu)) s1 h1 s hs

/-- Claim C3 (amended): after each processed trade every entry of the
positions map has strictly positive shares PROVIDED every BUY in the
stream has a strictly positive coerced size; a BUY whose size coerces to 0
(e.g. a malformed record) on a fresh key leaves a zero-share entry in the
map (see the counterexample), while SELL processing never leaves an entry
with shares ≤ 0. -/
theorem C3_positive_shares (items pre rest : List RawTrade) (hsplit : items = pre ++ rest)
    (hb : ∀ t ∈ items, upperStr t.side = "BUY" → 0 < szOf t)
    (s : LedgerState) (hs : processTrades pre = some s) :
    ∀ k p, s.positions k = some p → 0 < p.shares := by
  have hbp : ∀ t ∈ pre, upperStr t.side = "BUY" → 0 < szOf t := fun t ht =>
    hb t (by rw [hsplit]; exact List.mem_append_left _ ht)
  have hinit : posInv initState.positions := by
    intro k p hp
    simp [initState, emptyPos] at hp
  exact foldl_posInv pre hbp initState hinit s hs

/-- Witness for the amended C3: after one positive-size BUY the resulting
entry has strictly positive shares. -/
theorem C3_positive_shares_witness : 0 < (Position.mk 1 (1 / 2)).shares := by
  have hs : processTrades [c3buy] = some ((processTrades [c3buy]).getD initState) := by
    with_unfolding_all rfl
  exact C3_positive_shares [c3buy] [c3buy] [] rfl (by with_unfolding_all decide) _ hs
    ("m", "yes") (Position.mk 1 (1 / 2)) (by with_unfolding_all rfl)

theorem keySizeSum_cons (t : RawTrade) (ts : List RawTrade) (k : Key) :
    keySizeSum (t :: ts) k =
      (if tradeKey t = k then szOf t else 0) + keySizeSum ts k := by
  simp [keySizeSum]

theorem keyCostSum_cons (t : RawTrade) (ts : List RawTrade) (k : Key) :
    keyCostSum (t :: ts) k =
      (if tradeKey t = k then amtOf t else 0) + keyCostSum ts k := by
  simp [keyCostSum]

theorem keySizeSum_of_not_mem (items : List RawTrade) (k : Key)
    (h : k ∉ items.map tradeKey) : keySizeSum items k = 0 := by
  induction items with
  | nil => rfl
  | cons t ts ih =>
      simp only [List.map_cons, List.mem_cons, not_or] at h
      rw [keySizeSum_cons, if_neg (fun he => h.1 he.symm), ih h.2, add_zero]

theorem keyCostSum_of_not_mem (items : List RawTrade) (k : Key)
    (h : k ∉ items.map tradeKey) : keyCostSum items k = 0 := by
  induction items with
  | nil => rfl
  | cons t ts ih =>
      simp only [List.map_cons, List.mem_cons, not_or] at h
      rw [keyCostSum_cons, if_neg (fun he => h.1 he.symm), ih h.2, add_zero]

theorem buyFold : ∀ items : List RawTrade,
    (∀ t ∈ items, upperStr t.side = "BUY") →
    (∀ t ∈ items, (parseSize t).isSome ∧ (parsePrice t).isSome) →
    ∀ s0 : LedgerState, ∃ s, List.foldlM processTrade s0 items = some s ∧
      s.realized_pnl = s0.realized_pnl ∧
      s.winning_trades = s0.winning_trades ∧
      s.losing_trades = s0.losing_trades ∧
      ∀ k, s.positions k =
        if k ∈ items.map tradeKey then
          some (Position.mk (shOf (s0.positions k) + keySizeSum items k)
            (cbOf (s0.positions k) + keyCostSum items k))
        else s0.positions k := by
  intro items
  induction items with
  | nil =>
      intro _ _ s0
      exact ⟨s0, rfl, rfl, rfl, rfl, fun k => by simp⟩
  | cons t ts ih =>
      intro hbuy hok s0
      have hside := hbuy t (List.mem_cons_self t ts)
      obtain ⟨hs1, hp1⟩ := hok t (List.mem_cons_self t ts)
      obtain ⟨sz, hsz⟩ := Option.isSome_iff_exists.mp hs1
      obtain ⟨pr, hpr⟩ := Option.isSome_iff_exists.mp hp1
      have hstep := processTrade_buy s0 t sz pr hsz hpr hside
      obtain ⟨s, hfold, hr, hw, hl, hpos⟩ :=
        ih (fun u hu => hbuy u (List.mem_cons_of_mem t hu))
          (fun u hu => hok u (List.mem_cons_of_mem t hu))
          { s0 with total_dollar_volume := s0.total_dollar_volume + sz * pr
                    trade_count := s0.trade_count + 1
                    positions := applyBuy s0.positions (tradeKey t) sz (sz * pr) }
      refine ⟨s, ?_, hr, hw, hl, fun k => ?_⟩
      · rw [List.foldlM_cons, hstep]
        exact hfold
      · have hk := hpos k
        have hszt : szOf t = sz := by rw [szOf, hsz, Option.getD_some]
        have hamt : amtOf t = sz * pr := by
          rw [amtOf, hszt, prOf, hpr, Option.getD_some]
        by_cases hkt : k = tradeKey t
        · subst hkt
          rw [show ({ s0 with
                total_dollar_volume := s0.total_dollar_volume + sz * pr
                trade_count := s0.trade_count + 1
                positions := applyBuy s0.positions (tradeKey t) sz (sz * pr) } :
                LedgerState).positions = applyBuy s0.positions (tradeKey t) sz (sz * pr)
              from rfl, applyBuy_self] at hk
          rw [keySizeSum_cons, keyCostSum_cons, if_pos rfl, if_pos rfl, hszt, hamt]
          rw [if_pos (show tradeKey t ∈ (t :: ts).map tradeKey by simp)]
          by_cases hmem : tradeKey t ∈ ts.map tradeKey
          · rw [if_pos hmem] at hk
            rw [hk]
            simp only [shOf, cbOf, Option.getD_some, Option.some.injEq, Position.mk.injEq]
            constructor <;> ring
          · rw [if_neg hmem] at hk
            rw [hk, keySizeSum_of_not_mem ts _ hmem, keyCostSum_of_not_mem ts _ hmem]
            simp only [shOf, cbOf, Option.getD_some, Option.some.injEq, Position.mk.injEq]
            constructor <;> ring
        · rw [show ({ s0 with
                total_dollar_volume := s0.total_dollar_volume + sz * pr
                trade_count := s0.trade_count + 1
                positions := applyBuy s0.positions (tradeKey t) sz (sz * pr) } :
                LedgerState).positions = applyBuy s0.positions (tradeKey t) sz (sz * pr)
              from rfl, applyBuy_other _ _ _ _ _ hkt] at hk
          rw [keySizeSum_cons, keyCostSum_cons,
            if_neg (show ¬ tradeKey t = k from fun h => hkt h.symm),
            if_neg (show ¬ tradeKey t = k from fun h => hkt h.symm), zero_add, zero_add]
          have hiff : (k ∈ (t :: ts).map tradeKey) ↔ (k ∈ ts.map tradeKey) := by
            simp only [List.map_cons, List.mem_cons]
            exact or_iff_right hkt
          rw [if_congr hiff rfl rfl]
          exact hk

/-- Claim C2: a trade stream consisting only of BUY trades (with parseable
sizes and prices) ends with zero realized PnL, zero winning and zero
losing trades, and, for every key that occurs in the stream, an open
position whose shares are the sum of that key's sizes and whose cost basis
is the sum of that key's `size*price` amounts; keys that do not occur have
no entry. -/
theorem C2_all_buys (items : List RawTrade)
    (hbuy : ∀ t ∈ items, upperStr t.side = "BUY")
    (hok : ∀ t ∈ items, (parseSize t).isSome ∧ (parsePrice t).isSome) :
    ∃ s, processTrades items = some s ∧
      s.realized_pnl = 0 ∧ s.winning_trades = 0 ∧ s.losing_trades = 0 ∧
      ∀ k, s.positions k =
        if k ∈ items.map tradeKey then
          some (Position.mk (keySizeSum items k) (keyCostSum items k))
        else none := by
  obtain ⟨s, hfold, hr, hw, hl, hpos⟩ := buyFold items hbuy hok initState
  refine ⟨s, hfold, hr, hw, hl, fun k => ?_⟩
  have hk := hpos k
  rw [show initState.positions k = none from rfl] at hk
  simpa only [shOf, cbOf, Option.getD_none, zero_add] using hk

/-- Witness for C2: buying 10 shares at 1.00 and 10 more at 2.00 on the
same key yields realized PnL 0 and the position `shares=20,
cost_basis=30`. -/
theorem C2_all_buys_witness :
    (processTrades [c2buy1, c2buy2]).map
        (fun s => (s.realized_pnl, s.positions ("m", "yes"))) =
      some (0, some (Position.mk 20 30)) := by
  obtain ⟨s, hs, hr, -, -, hpos⟩ :=
    C2_all_buys [c2buy1, c2buy2] (by with_unfolding_all decide) (by with_unfolding_all decide)
  have hk := hpos ("m", "yes")
  rw [if_pos (by with_unfolding_all decide)] at hk
  have h20 : keySizeSum [c2buy1, c2buy2] ("m", "yes") = 20 := by with_unfolding_all decide
  have h30 : keyCostSum [c2buy1, c2buy2] ("m", "yes") = 30 := by with_unfolding_all decide
  rw [hs, Option.map_some', hr, hk, h20, h30]

/-- Claim C6: every live record adds `size*price` to the position-value
total; when its key matches an open ledger position with `shares > 0`,
unrealized PnL additionally grows by
`size*price - size*(cost_basis/shares)` computed from the externally
reported size; otherwise unrealized PnL is unchanged. -/
theorem C6_reconcile_step (ops : Positions) (acc : ℚ × ℚ) (it : RawPos) (sz pr : ℚ)
    (hsz : liveSize it.size it.tokens = some sz)
    (hpr : parseLivePrice it = some pr) :
    reconcileOne ops acc it = some
      (acc.1 + sz * pr,
       acc.2 +
         match ops (posKey it) with
         | some p => if 0 < p.shares then sz * pr - sz * (p.cost_basis / p.shares) else 0
         | none => 0) := by
  cases hq : ops (posKey it) with
  | none => simp [reconcileOne, hsz, hpr, hq]
  | some p =>
      by_cases hs : 0 < p.shares
      · simp [reconcileOne, hsz, hpr, hq, hs]
      · simp [reconcileOne, hsz, hpr, hq, hs]

/-- Witness for C6: live size 10 at price 0.70 against an open position of
10 shares with cost basis 5 yields value 7 and unrealized PnL 2. -/
theorem C6_reconcile_step_witness :
    reconcileOne c6ops (0, 0) c6live = some (7, 2) := by
  rw [C6_reconcile_step c6ops (0, 0) c6live 10 (7 / 10)
    (by with_unfolding_all decide) (by with_unfolding_all decide)]
  with_unfolding_all decide

/-- Counterexample to C7: a batch with one well-formed trade and one trade
whose `size` is a non-numeric string does NOT count either trade: the
`float()` exception is caught at the wallet boundary (line 134) and the
whole wallet's metrics are zeroed (`total_trades = 0`, not 2). -/
theorem C7_counterexample :
    processTrades [c7good, c7bad] = none ∧
    tupMetrics (fetchUserTradesWithPrices (Fetch.success [c7good, c7bad])) =
      some zeroMetrics ∧
    zeroMetrics.total_trades = 0 := by
  refine ⟨by with_unfolding_all rfl, by with_unfolding_all rfl, rfl⟩

theorem applySell_trade_count (s : LedgerState) (k : Key) (a d : ℚ) :
    (applySell s k a d).trade_count = s.trade_count := by
  unfold applySell
  cases s.positions k with
  | none => rfl
  | some p => by_cases h : 0 < p.shares <;> simp [h]

theorem applySell_volume (s : LedgerState) (k : Key) (a d : ℚ) :
    (applySell s k a d).total_dollar_volume = s.total_dollar_volume := by
  unfold applySell
  cases s.positions k with
  | none => rfl
  | some p => by_cases h : 0 < p.shares <;> simp [h]

/-- Claim C7 (amended): a trade record whose `size`/`price` fields parse
(in particular fields that are absent, JSON null, or otherwise falsy,
which coerce to 0) is processed without raising, counts 1 toward the trade
count and adds its coerced `size*price` to the volume; but a truthy
non-numeric string makes `float()` raise, which rolls back to the wallet
boundary and zeroes the whole wallet (see the counterexample). -/
theorem C7_coercion (s : LedgerState) (t : RawTrade) (sz pr : ℚ)
    (hsz : parseSize t = some sz) (hpr : parsePrice t = some pr) :
    ∃ s2, processTrade s t = some s2 ∧
      s2.trade_count = s.trade_count + 1 ∧
      s2.total_dollar_volume = s.total_dollar_volume + sz * pr ∧
      ((∀ v, t.size = some v → truthy v = false) → sz = 0) ∧
      ((∀ v, t.price = some v → truthy v = false) → pr = 0) := by
  have hszf : (∀ v, t.size = some v → truthy v = false) → sz = 0 := by
    intro hf
    rw [parseSize] at hsz
    cases hv : t.size with
    | none =>
        rw [hv] at hsz
        simp only [Option.getD_none, pyOr, truthy, pyFloat] at hsz
        simp only [decide_not, ne_eq, decide_eq_true_eq, not_true_eq_false] at hsz
        simp at hsz
        exact hsz.symm
    | some v =>
        have hfv := hf v hv
        rw [hv] at hsz
        simp only [Option.getD_some, pyOr, hfv, pyFloat] at hsz
        simp at hsz
        exact hsz.symm
  have hprf : (∀ v, t.price = some v → truthy v = false) → pr = 0 := by
    intro hf
    rw [parsePrice] at hpr
    cases hv : t.price with
    | none =>
        rw [hv] at hpr
        simp only [Option.getD_none, pyOr, truthy, pyFloat] at hpr
        simp at hpr
        exact hpr.symm
    | some v =>
        have hfv := hf v hv
        rw [hv] at hpr
        simp only [Option.getD_some, pyOr, hfv, pyFloat] at hpr
        simp at hpr
        exact hpr.symm
  by_cases hbuy : upperStr t.side = "BUY"
  · exact ⟨_, processTrade_buy s t sz pr hsz hpr hbuy, rfl, rfl, hszf, hprf⟩
  · by_cases hsell : upperStr t.side = "SELL"
    · refine ⟨_, processTrade_sell s t sz pr hsz hpr hsell, ?_, ?_, hszf, hprf⟩
      · rw [applySell_trade_count]
      · rw [applySell_volume]
    · exact ⟨_, processTrade_skip s t sz pr hsz hpr hbuy hsell, rfl, rfl, hszf, hprf⟩

/-- Witness for the amended C7: a BUY with `size` absent and `price` null
is processed, counts one trade, and contributes 0 dollars. -/
theorem C7_coercion_witness :
    (processTrade initState c7null).map
        (fun s => (s.trade_count, s.total_dollar_volume)) = some (1, 0) := by
  obtain ⟨s2, h1, h2, h3, -, -⟩ := C7_coercion initState c7null 0 0
    (by with_unfolding_all decide) (by with_unfolding_all decide)
  rw [h1, Option.map_some', h2, h3]
  norm_num [initState]

/-- Counterexample to C8: realized PnL 1/250 (= 0.004) and unrealized PnL
1/250 each round to 0.00 inside the fetchers, so the emitted
`total_pnl` is 0.00, while the full-precision sum 1/125 (= 0.008) would
round to 0.01 — rounding IS applied to the intermediate values feeding
`total_pnl`. -/
theorem C8_counterexample :
    (enhanceUser (Fetch.success [c8buyA, c8sellA, c8buyB])
        (Fetch.success [c8mark])).map (fun p => p.total_pnl) = some 0 ∧
    (processTrades [c8buyA, c8sellA, c8buyB]).map (fun s => s.realized_pnl) =
      some (1 / 250) ∧
    ((processTrades [c8buyA, c8sellA, c8buyB]).bind (fun s =>
        ([c8mark].foldlM (reconcileOne s.positions) ((0 : ℚ), (0 : ℚ))).map Prod.snd)) =
      some (1 / 250) ∧
    rnd2 (1 / 250 + 1 / 250) = 1 / 100 ∧ (0 : ℚ) ≠ 1 / 100 := by
  refine ⟨?_, ?_, ?_, ?_, ?_⟩ <;> with_unfolding_all decide

/-- Claim C8 (amended): `total_pnl` is `round(realized_pnl +
unrealized_pnl, 2)` computed from the ALREADY-ROUNDED (2-decimal)
`realized_pnl` and `unrealized_pnl` values produced inside the two
fetchers — rounding is applied to those intermediates before the sum, not
only at the presentation boundary (see the counterexample). -/
theorem C8_total_pnl (ft : Fetch RawTrade) (fp : Fetch RawPos) (p : Profile)
    (h : enhanceUser ft fp = some p) :
    p.total_pnl = rnd2 (p.realized_pnl + p.unrealized_pnl) := by
  unfold enhanceUser at h
  revert h
  cases fetchUserTradesWithPrices ft with
  | bare m => intro h; cases h
  | tup m ops =>
      intro h
      injection h with h2
      rw [← h2]

/-- Witness for the amended C8 on the all-failure wallet. -/
theorem C8_total_pnl_witness :
    ((enhanceUser Fetch.failure Fetch.failure).getD defProfile).total_pnl =
      rnd2 (((enhanceUser Fetch.failure Fetch.failure).getD defProfile).realized_pnl +
        ((enhanceUser Fetch.failure Fetch.failure).getD defProfile).unrealized_pnl) :=
  C8_total_pnl Fetch.failure Fetch.failure _ (by with_unfolding_all rfl)

theorem pyOr_num (o : Option JVal) (ho : numericOpt o) :
    pyOr (o.getD (JVal.jnum 0)) (JVal.jnum 0) = JVal.jnum (nvOf o) := by
  cases hv : o with
  | none => simp [pyOr, truthy, nvOf]
  | some v =>
      rcases ho v hv with h | ⟨q, h⟩ <;> subst h
      · simp [pyOr, truthy, nvOf]
      · by_cases hq : q = 0
        · subst hq; simp [pyOr, truthy, nvOf]
        · simp [pyOr, truthy, nvOf, hq]

theorem liveSize_eq_nv (size tokens : Option JVal)
    (hs : numericOpt size) (ht : numericOpt tokens) :
    liveSize size tokens = some (if nvOf size ≠ 0 then nvOf size else nvOf tokens) := by
  rw [liveSize, pyOr_num tokens ht]
  cases hv : size with
  | none => simp [pyOr, truthy, pyFloat, nvOf]
  | some v =>
      rcases hs v hv with h | ⟨q, h⟩ <;> subst h
      · simp [pyOr, truthy, pyFloat, nvOf]
      · by_cases hq : q = 0
        · subst hq; simp [pyOr, truthy, pyFloat, nvOf]
        · simp [pyOr, truthy, pyFloat, nvOf, hq]

theorem falsyOpt_iff_nv (o : Option JVal) (ho : numericOpt o) :
    falsyOpt o ↔ nvOf o = 0 := by
  cases hv : o with
  | none =>
      simp only [falsyOpt, nvOf]
      constructor
      · intro _; trivial
      · intro _ v hv2; cases hv2
  | some v =>
      rcases ho v hv with h | ⟨q, h⟩ <;> subst h
      · simp only [falsyOpt, nvOf]
        constructor
        · intro _; trivial
        · intro _ v hv2; cases hv2; rfl
      · simp only [falsyOpt, nvOf]
        constructor
        · intro hf
          have := hf (JVal.jnum q) rfl
          simpa [truthy] using this
        · intro hq v hv2
          cases hv2
          simp [truthy, hq]

/-- Claim C10: for numeric-or-null `size`/`tokens` fields, the live
position size falls back from a falsy (absent, null, or 0) `size` to the
`tokens` field; it is 0 exactly when both fields are absent or falsy; and
an explicitly reported size of 0 is silently replaced by a nonzero
`tokens` value. -/
theorem C10_live_size_fallback (size tokens : Option JVal)
    (hs : numericOpt size) (ht : numericOpt tokens) :
    (falsyOpt size →
      liveSize size tokens = pyFloat (pyOr (tokens.getD (JVal.jnum 0)) (JVal.jnum 0))) ∧
    (liveSize size tokens = some 0 ↔ (falsyOpt size ∧ falsyOpt tokens)) ∧
    (∀ q : ℚ, size = some (JVal.jnum 0) → tokens = some (JVal.jnum q) →
      liveSize size tokens = some q) := by
  have hmain := liveSize_eq_nv size tokens hs ht
  refine ⟨?_, ?_, ?_⟩
  · intro hf
    have h0 : nvOf size = 0 := (falsyOpt_iff_nv size hs).mp hf
    rw [hmain, h0, pyOr_num tokens ht]
    simp [pyFloat]
  · rw [hmain]
    constructor
    · intro h
      injection h with h2
      by_cases h1 : nvOf size ≠ 0
      · rw [if_pos h1] at h2; exact absurd h2 h1
      · rw [if_neg h1] at h2
        push_neg at h1
        exact ⟨(falsyOpt_iff_nv size hs).mpr h1, (falsyOpt_iff_nv tokens ht).mpr h2⟩
    · rintro ⟨f1, f2⟩
      rw [(falsyOpt_iff_nv size hs).mp f1, (falsyOpt_iff_nv tokens ht).mp f2]
      simp
  · intro q h1 h2
    rw [hmain, h1, h2]
    simp [nvOf]

/-- Witness for C10: size reported as 0 with tokens 5 yields live size 5. -/
theorem C10_live_size_fallback_witness :
    liveSize (some (JVal.jnum 0)) (some (JVal.jnum 5)) = some 5 := by
  have h := C10_live_size_fallback (some (JVal.jnum 0)) (some (JVal.jnum 5))
    (fun v hv => by cases hv; exact Or.inr ⟨0, rfl⟩)
    (fun v hv => by cases hv; exact Or.inr ⟨5, rfl⟩)
  exact h.2.2 5 rfl rfl
